import Mathlib

/-!
Verification of the puzzle uniqueness validator (`src/puzzle-validator.js`).

The JavaScript module is shallowly embedded below: JS arrays become `List`,
JS `Set` values become deduplicated lists (only membership and cardinality of
these sets is ever consulted by the code), and JS plain objects used as
string-keyed maps become association lists with JS insertion-order/overwrite
semantics (`objSet`, `bump`).  Every function keeps its source name.
-/

set_option maxHeartbeats 1000000

namespace ConnectionsValidator

/-- One group of a puzzle: its four words and the `explanation` string. -/
structure PuzzleGroup where
  words : List String
  explanation : String
deriving DecidableEq, Repr

/-- One daily puzzle: a `date` key, the 16 display words, and the groups. -/
structure Puzzle where
  date : String
  words : List String
  groups : List PuzzleGroup
deriving DecidableEq, Repr

/-- Case-insensitive comparisons of the source (`toLowerCase`): lowercase a
string character by character (`Char.toLower`, as Mathlib's `String.toLower`,
but by structural recursion so that concrete instances evaluate). -/
def lowerStr (s : String) : String := ⟨s.data.map Char.toLower⟩

/-- JS-object key update used for `wordsByDate[puzzle.date] = ...`: overwrite
the value at an existing key in place, otherwise append the new key. -/
def objSet (m : List (String × List String)) (k : String) (v : List String) :
    List (String × List String) :=
  if m.any (fun e => e.1 = k) then
    m.map (fun e => if e.1 = k then (k, v) else e)
  else m ++ [(k, v)]

/-- `getAllUsedWords`: the set of all lowercased words of the corpus, together
with the `wordsByDate` map from each date to that puzzle's own word list. -/
def getAllUsedWords (existingPuzzles : List Puzzle) :
    List String × List (String × List String) :=
  ((existingPuzzles.flatMap (fun p => p.words.map lowerStr)).dedup,
   existingPuzzles.foldl (fun m p => objSet m p.date p.words) [])

/-- `getAllUsedExplanations`: the set of all lowercased group explanations. -/
def getAllUsedExplanations (existingPuzzles : List Puzzle) : List String :=
  (existingPuzzles.flatMap (fun p => p.groups.map (fun g => lowerStr g.explanation))).dedup

/-- One record returned by `checkForDuplicateWords`. -/
structure DuplicateWord where
  word : String
  usedIn : List String
deriving DecidableEq, Repr

/-- `checkForDuplicateWords`: one record per candidate word whose lowercase
form occurs in the corpus; `usedIn` holds the dates whose word list contains
the candidate word by exact (case-sensitive) membership. -/
def checkForDuplicateWords (newPuzzle : Puzzle) (existingPuzzles : List Puzzle) :
    List DuplicateWord :=
  let uw := getAllUsedWords existingPuzzles
  newPuzzle.words.filterMap (fun word =>
    if lowerStr word ∈ uw.1 then
      some { word := word
             usedIn := (uw.2.filter (fun e => word ∈ e.2)).map (fun e => e.1) }
    else none)

/-- One record returned by `checkForDuplicateGroups`. -/
structure DuplicateGroup where
  groupIndex : Nat
  newGroupExplanation : String
  newGroupWords : List String
  previousDate : String
  previousExplanation : String
  overlappingWords : List String
  overlapCount : Nat
deriving DecidableEq, Repr

/-- The overlap list computed inside `checkForDuplicateGroups`: the spread of
the lowercase word set of the new group, filtered by membership in the
previous group's lowercase word set. -/
def lowerOverlap (newWords prevWords : List String) : List String :=
  ((newWords.map lowerStr).dedup).filter
    (fun w => w ∈ prevWords.map lowerStr)

/-- The `previousGroups` array built by `checkForDuplicateGroups`: every
corpus group paired with its puzzle's date, in corpus order. -/
def flatGroups (existingPuzzles : List Puzzle) : List (String × PuzzleGroup) :=
  existingPuzzles.flatMap (fun p => p.groups.map (fun g => (p.date, g)))

/-- `checkForDuplicateGroups`: flatten all corpus groups (with their puzzle's
date), then for each candidate group (with its index) emit a record for every
previous group whose lowercase-set overlap reaches `minOverlap`. -/
def checkForDuplicateGroups (newPuzzle : Puzzle) (existingPuzzles : List Puzzle)
    (minOverlap : Nat) : List DuplicateGroup :=
  let previousGroups := flatGroups existingPuzzles
  newPuzzle.groups.enum.flatMap (fun gi =>
    previousGroups.filterMap (fun prev =>
      let overlap := lowerOverlap gi.2.words prev.2.words
      if minOverlap ≤ overlap.length then
        some { groupIndex := gi.1
               newGroupExplanation := gi.2.explanation
               newGroupWords := gi.2.words
               previousDate := prev.1
               previousExplanation := prev.2.explanation
               overlappingWords := overlap
               overlapCount := overlap.length }
      else none))

/-- `checkForSimilarExplanations`: the explanations (original casing, in
candidate group order) whose lowercase form was already used. -/
def checkForSimilarExplanations (newPuzzle : Puzzle) (existingPuzzles : List Puzzle) :
    List String :=
  (newPuzzle.groups.filter (fun g =>
    lowerStr g.explanation ∈ getAllUsedExplanations existingPuzzles)).map
    (fun g => g.explanation)

/-- The per-puzzle test of `checkForExactDuplicate`: same date, or equal
lowercase word sets (size check plus subset check, as in the source). -/
def isExactDuplicate (newPuzzle puzzle : Puzzle) : Bool :=
  if puzzle.date = newPuzzle.date then true
  else
    let existingWords := (puzzle.words.map lowerStr).dedup
    let newWords := (newPuzzle.words.map lowerStr).dedup
    if existingWords.length = newWords.length then
      newWords.all (fun w => w ∈ existingWords)
    else false

/-- `checkForExactDuplicate`: first corpus puzzle that is an exact duplicate. -/
def checkForExactDuplicate (newPuzzle : Puzzle) (existingPuzzles : List Puzzle) :
    Option Puzzle :=
  existingPuzzles.find? (fun puzzle => isExactDuplicate newPuzzle puzzle)

/-- JS-object counter update `wordCount[w] = (wordCount[w] || 0) + 1`. -/
def bump (m : List (String × Nat)) (k : String) : List (String × Nat) :=
  if m.any (fun e => e.1 = k) then
    m.map (fun e => if e.1 = k then (e.1, e.2 + 1) else e)
  else m ++ [(k, 1)]

/-- The `wordCount` object built by `getWordUsageStats`: lowercase word
frequency across the whole corpus, keys in first-appearance order. -/
def wordCounts (existingPuzzles : List Puzzle) : List (String × Nat) :=
  existingPuzzles.foldl (fun m p => p.words.foldl (fun m w => bump m (lowerStr w)) m) []

/-- The record returned by `getWordUsageStats`. -/
structure UsageStats where
  totalWords : Nat
  totalPuzzles : Nat
  reusedWords : List (String × Nat)
  averageWordsPerPuzzle : Nat
deriving DecidableEq, Repr

/-- `getWordUsageStats`: totals plus the words with count above one, sorted
descending by count (stable, as JS `sort`), capped at the first 10. -/
def getWordUsageStats (existingPuzzles : List Puzzle) : UsageStats :=
  let wordCount := wordCounts existingPuzzles
  let totalPuzzles := existingPuzzles.length
  let reusedWords :=
    ((wordCount.filter (fun e => decide (1 < e.2))).mergeSort
      (fun a b => decide (b.2 ≤ a.2))).take 10
  { totalWords := wordCount.length
    totalPuzzles := totalPuzzles
    reusedWords := reusedWords
    averageWordsPerPuzzle := if 0 < totalPuzzles then totalPuzzles * 16 / totalPuzzles else 0 }

/-- Options of `validatePuzzleUniqueness` (source defaults in the JS
destructuring are `true, true, 3, true`). -/
structure ValidateOptions where
  allowWordReuse : Bool
  allowSimilarExplanations : Bool
  minGroupOverlap : Nat
  verbose : Bool
deriving DecidableEq, Repr

/-- The default options value of the source's destructuring defaults. -/
def defaultOptions : ValidateOptions :=
  { allowWordReuse := true
    allowSimilarExplanations := true
    minGroupOverlap := 3
    verbose := true }

/-- The result record of `validatePuzzleUniqueness`. -/
structure ValidationResult where
  valid : Bool
  warnings : List String
  errors : List String
  info : List String
deriving DecidableEq, Repr

/-- Error line for one duplicate-group record. -/
def fmtGroupError (d : DuplicateGroup) : String :=
  "Group \"" ++ d.newGroupExplanation ++ "\" has " ++ toString d.overlapCount ++
    "/4 words from group \"" ++ d.previousExplanation ++ "\" (" ++ d.previousDate ++
    "): [" ++ String.intercalate ", " d.overlappingWords ++ "]"

/-- Error line for one reused word in strict mode. -/
def fmtWordError (d : DuplicateWord) : String :=
  "Word \"" ++ d.word ++ "\" already used in: " ++ String.intercalate ", " d.usedIn

/-- Summary warning line for word reuse in normal mode. -/
def fmtWordWarnSummary (n : Nat) : String :=
  toString n ++ " word(s) reused from previous puzzles (spread across different groups - OK)"

/-- Per-word detail warning line for word reuse in normal mode. -/
def fmtWordWarnDetail (d : DuplicateWord) : String :=
  "   - \"" ++ d.word ++ "\" was in: " ++ String.intercalate ", " d.usedIn

/-- Truncation warning line when more than five words were reused. -/
def fmtWordWarnMore (n : Nat) : String :=
  "   ... and " ++ toString n ++ " more"

/-- Error line for one already-used explanation in strict mode. -/
def fmtExplError (e : String) : String :=
  "Explanation already used: \"" ++ e ++ "\""

/-- Summary warning line for similar explanations in normal mode. -/
def fmtExplWarn (n : Nat) : String :=
  toString n ++ " similar explanation(s) found"

/-- Positive info line of the group check. -/
def infoGroups : String :=
  "✅ All groups are unique (no group has 3+ words from a previous group)"

/-- Positive info line of the word check. -/
def infoWords : String := "✅ No duplicate words found"

/-- Positive info line of the explanation check. -/
def infoExplanations : String := "✅ All explanations are unique"

/-- Error lines pushed by the group-overlap branch of the source. -/
def groupErrorLines (duplicateGroups : List DuplicateGroup) : List String :=
  if 0 < duplicateGroups.length then duplicateGroups.map fmtGroupError else []

/-- Info line pushed when the group-overlap check finds nothing. -/
def groupInfoLines (duplicateGroups : List DuplicateGroup) : List String :=
  if 0 < duplicateGroups.length then [] else [infoGroups]

/-- Error lines pushed by the word-reuse branch when `allowWordReuse` is off. -/
def wordErrorLines (duplicateWords : List DuplicateWord) (allowWordReuse : Bool) :
    List String :=
  if 0 < duplicateWords.length ∧ allowWordReuse = false then
    duplicateWords.map fmtWordError
  else []

/-- Warning lines pushed by the word-reuse branch when `allowWordReuse` is on:
a summary, then (verbose only) up to five detail lines and a truncation line. -/
def wordWarningLines (duplicateWords : List DuplicateWord) (allowWordReuse verbose : Bool) :
    List String :=
  if 0 < duplicateWords.length ∧ allowWordReuse = true then
    fmtWordWarnSummary duplicateWords.length ::
      (if verbose = true then
        (duplicateWords.take 5).map fmtWordWarnDetail ++
          (if 5 < duplicateWords.length then
            [fmtWordWarnMore (duplicateWords.length - 5)]
           else [])
       else [])
  else []

/-- Info line pushed when no individual word is reused. -/
def wordInfoLines (duplicateWords : List DuplicateWord) : List String :=
  if 0 < duplicateWords.length then [] else [infoWords]

/-- Error lines pushed by the explanation branch when
`allowSimilarExplanations` is off. -/
def explErrorLines (similarExplanations : List String)
    (allowSimilarExplanations : Bool) : List String :=
  if 0 < similarExplanations.length ∧ allowSimilarExplanations = false then
    similarExplanations.map fmtExplError
  else []

/-- Warning line pushed by the explanation branch when
`allowSimilarExplanations` is on. -/
def explWarningLines (similarExplanations : List String)
    (allowSimilarExplanations : Bool) : List String :=
  if 0 < similarExplanations.length ∧ allowSimilarExplanations = true then
    [fmtExplWarn similarExplanations.length]
  else []

/-- Info line pushed when no explanation was already used. -/
def explInfoLines (similarExplanations : List String) : List String :=
  if 0 < similarExplanations.length then [] else [infoExplanations]

/-- `validatePuzzleUniqueness`: exact-duplicate short circuit, then the group,
word and explanation checks accumulating into the three buckets in source
push order; `valid` is cleared exactly by the branches that push errors. -/
def validatePuzzleUniqueness (newPuzzle : Puzzle) (existingPuzzles : List Puzzle)
    (options : ValidateOptions) : ValidationResult :=
  match checkForExactDuplicate newPuzzle existingPuzzles with
  | some exactDuplicate =>
      { valid := false
        warnings := []
        errors := ["Exact duplicate of puzzle from " ++ exactDuplicate.date]
        info := [] }
  | none =>
      let duplicateGroups :=
        checkForDuplicateGroups newPuzzle existingPuzzles options.minGroupOverlap
      let duplicateWords := checkForDuplicateWords newPuzzle existingPuzzles
      let similarExplanations := checkForSimilarExplanations newPuzzle existingPuzzles
      { valid := !(decide (0 < duplicateGroups.length)) &&
          !(decide (0 < duplicateWords.length) && !options.allowWordReuse) &&
          !(decide (0 < similarExplanations.length) && !options.allowSimilarExplanations)
        warnings := wordWarningLines duplicateWords options.allowWordReuse options.verbose ++
          explWarningLines similarExplanations options.allowSimilarExplanations
        errors := groupErrorLines duplicateGroups ++
          wordErrorLines duplicateWords options.allowWordReuse ++
          explErrorLines similarExplanations options.allowSimilarExplanations
        info := groupInfoLines duplicateGroups ++ wordInfoLines duplicateWords ++
          explInfoLines similarExplanations }

/-! ## Spec-side notions -/

/-- The spec's notion of an exact duplicate: same date, or the same
case-insensitive word set (same membership, hence same cardinality). -/
def exactDupSpec (c p : Puzzle) : Prop :=
  p.date = c.date ∨
    (p.words.map lowerStr).toFinset = (c.words.map lowerStr).toFinset

instance (c p : Puzzle) : Decidable (exactDupSpec c p) := by
  unfold exactDupSpec; infer_instance

/-- The spec's case-insensitive intersection of two word lists, as a finite
set. -/
def interLower (xs ys : List String) : Finset String :=
  (xs.map lowerStr).toFinset ∩ (ys.map lowerStr).toFinset

/-! ## Basic lemmas -/

theorem dedup_toFinset {α : Type _} [DecidableEq α] (l : List α) :
    l.dedup.toFinset = l.toFinset := by
  ext a
  simp [List.mem_toFinset, List.mem_dedup]

/-- The source's size-plus-subset test on deduplicated lowercase lists decides
equality of the corresponding finite sets. -/
theorem dedup_len_all_iff {α : Type _} [DecidableEq α] (xs ys : List α) :
    ((if xs.dedup.length = ys.dedup.length then
        ys.dedup.all (fun w => decide (w ∈ xs.dedup))
      else false) = true) ↔ xs.toFinset = ys.toFinset := by
  constructor
  · intro h
    split at h
    case isTrue hlen =>
      have hsub : ys.toFinset ⊆ xs.toFinset := by
        intro w hw
        have hmem : w ∈ ys.dedup := List.mem_dedup.mpr (List.mem_toFinset.mp hw)
        have := List.all_eq_true.mp h w hmem
        exact List.mem_toFinset.mpr (List.mem_dedup.mp (of_decide_eq_true this))
      have hcard : xs.toFinset.card ≤ ys.toFinset.card := by
        rw [List.card_toFinset, List.card_toFinset, hlen]
      exact (Finset.eq_of_subset_of_card_le hsub hcard).symm
    case isFalse => exact absurd h (by simp)
  · intro h
    have hlen : xs.dedup.length = ys.dedup.length := by
      rw [← List.card_toFinset, ← List.card_toFinset, h]
    rw [if_pos hlen]
    refine List.all_eq_true.mpr (fun w hw => decide_eq_true ?_)
    have hys : w ∈ ys.toFinset := List.mem_toFinset.mpr (List.mem_dedup.mp hw)
    rw [← h] at hys
    exact List.mem_dedup.mpr (List.mem_toFinset.mp hys)

/-- The source's per-puzzle boolean test agrees with the spec predicate. -/
theorem isExactDuplicate_eq (c p : Puzzle) :
    isExactDuplicate c p = decide (exactDupSpec c p) := by
  rw [Bool.eq_iff_iff, decide_eq_true_eq]
  unfold isExactDuplicate exactDupSpec
  by_cases hd : p.date = c.date
  · simp [hd]
  · rw [if_neg hd]
    rw [dedup_len_all_iff (p.words.map lowerStr) (c.words.map lowerStr)]
    exact (or_iff_right hd).symm

/-- `checkForExactDuplicate` is the first-match search for the spec's
duplicate predicate. -/
theorem checkForExactDuplicate_eq_find (c : Puzzle) (corpus : List Puzzle) :
    checkForExactDuplicate c corpus =
      corpus.find? (fun p => decide (exactDupSpec c p)) := by
  unfold checkForExactDuplicate
  congr 1
  funext p
  exact isExactDuplicate_eq c p

/-- Strict-mode word error lines are exactly one line per duplicate record. -/
theorem wordErrorLines_false (dw : List DuplicateWord) :
    wordErrorLines dw false = dw.map fmtWordError := by
  unfold wordErrorLines
  rcases dw with _ | ⟨d, rest⟩ <;> simp

/-! ## Claim theorems -/

/-- C2: `checkForExactDuplicate` returns the first corpus puzzle, in the
corpus's given order, whose date equals the candidate's date or whose
case-insensitive word set has the same membership and cardinality as the
candidate's; if no corpus puzzle satisfies either condition it returns
`none`. -/
theorem checkForExactDuplicate_spec (c : Puzzle) (corpus : List Puzzle) :
    checkForExactDuplicate c corpus =
      corpus.find? (fun p => decide (exactDupSpec c p)) :=
  checkForExactDuplicate_eq_find c corpus

/-- C1: if some corpus puzzle is an exact duplicate of the candidate (same
date string or same case-insensitive word set), `validatePuzzleUniqueness`
returns `valid = false` with exactly one error citing the date of the first
matching corpus puzzle, and empty `warnings` and `info`. -/
theorem validate_rejects_exact_duplicate (c : Puzzle) (corpus : List Puzzle)
    (opts : ValidateOptions) (h : ∃ p ∈ corpus, exactDupSpec c p) :
    ∃ p, corpus.find? (fun q => decide (exactDupSpec c q)) = some p ∧
      validatePuzzleUniqueness c corpus opts =
        { valid := false
          warnings := []
          errors := ["Exact duplicate of puzzle from " ++ p.date]
          info := [] } := by
  have hsome : (corpus.find? (fun q => decide (exactDupSpec c q))).isSome := by
    rw [List.find?_isSome]
    obtain ⟨p, hp, hspec⟩ := h
    exact ⟨p, hp, decide_eq_true hspec⟩
  obtain ⟨p, hp⟩ := Option.isSome_iff_exists.mp hsome
  refine ⟨p, hp, ?_⟩
  have hc : checkForExactDuplicate c corpus = some p :=
    (checkForExactDuplicate_eq_find c corpus).symm ▸ hp
  unfold validatePuzzleUniqueness
  rw [hc]

/-- Witness puzzle for the exact-duplicate claims: a one-group corpus entry. -/
def wP1 : Puzzle :=
  ⟨"2025-01-01", ["red", "blue", "green", "pink"],
   [⟨["red", "blue", "green", "pink"], "colors"⟩]⟩

/-- Witness candidate sharing `wP1`'s date with fresh words. -/
def wCandSameDate : Puzzle :=
  ⟨"2025-01-01", ["cat", "dog", "fox", "owl"],
   [⟨["cat", "dog", "fox", "owl"], "animals"⟩]⟩

/-- Witness for C1 at a concrete duplicate-date candidate. -/
theorem validate_rejects_exact_duplicate_witness :
    ∃ p, [wP1].find? (fun q => decide (exactDupSpec wCandSameDate q)) = some p ∧
      validatePuzzleUniqueness wCandSameDate [wP1] defaultOptions =
        { valid := false
          warnings := []
          errors := ["Exact duplicate of puzzle from " ++ p.date]
          info := [] } :=
  validate_rejects_exact_duplicate wCandSameDate [wP1] defaultOptions
    ⟨wP1, by simp, Or.inl rfl⟩

/-- C10: on the empty corpus, validation always succeeds with no errors, no
warnings, and exactly the three positive info notes of the group, word and
explanation checks. -/
theorem validate_empty_corpus (c : Puzzle) (opts : ValidateOptions) :
    validatePuzzleUniqueness c [] opts =
      { valid := true
        warnings := []
        errors := []
        info := [infoGroups, infoWords, infoExplanations] } := by
  have h1 : checkForExactDuplicate c [] = none := rfl
  have h2 : checkForDuplicateGroups c [] opts.minGroupOverlap = [] := by
    simp [checkForDuplicateGroups, flatGroups]
  have h3 : checkForDuplicateWords c [] = [] := by
    simp [checkForDuplicateWords, getAllUsedWords]
  have h4 : checkForSimilarExplanations c [] = [] := by
    simp [checkForSimilarExplanations, getAllUsedExplanations]
  simp [validatePuzzleUniqueness, h1, h2, h3, h4, groupErrorLines, groupInfoLines,
    wordErrorLines, wordWarningLines, wordInfoLines, explErrorLines,
    explWarningLines, explInfoLines]

/-- C4: for every input, the verdict is `false` exactly when the errors list
is non-empty; warnings and info never influence the flag. -/
theorem valid_iff_errors_nonempty (c : Puzzle) (corpus : List Puzzle)
    (opts : ValidateOptions) :
    (validatePuzzleUniqueness c corpus opts).valid = false ↔
      (validatePuzzleUniqueness c corpus opts).errors ≠ [] := by
  cases hf : checkForExactDuplicate c corpus with
  | some p => simp [validatePuzzleUniqueness, hf]
  | none =>
    simp only [validatePuzzleUniqueness, hf]
    by_cases h1 : checkForDuplicateGroups c corpus opts.minGroupOverlap = [] <;>
    by_cases h2 : checkForDuplicateWords c corpus = [] <;>
    by_cases h3 : checkForSimilarExplanations c corpus = [] <;>
    cases haw : opts.allowWordReuse <;>
    cases hae : opts.allowSimilarExplanations <;>
    simp_all [groupErrorLines, wordErrorLines, explErrorLines, List.length_pos]

/-- C6: with `allowWordReuse = false` and no exact duplicate, the errors list
holds exactly one strict-mode line per record of `checkForDuplicateWords`
(between the group and explanation errors), and any reused word forces
`valid = false`. -/
theorem validate_strict_mode (c : Puzzle) (corpus : List Puzzle)
    (opts : ValidateOptions)
    (hd : checkForExactDuplicate c corpus = none)
    (ha : opts.allowWordReuse = false) :
    (validatePuzzleUniqueness c corpus opts).errors =
      groupErrorLines (checkForDuplicateGroups c corpus opts.minGroupOverlap) ++
        (checkForDuplicateWords c corpus).map fmtWordError ++
        explErrorLines (checkForSimilarExplanations c corpus)
          opts.allowSimilarExplanations ∧
    (checkForDuplicateWords c corpus ≠ [] →
      (validatePuzzleUniqueness c corpus opts).valid = false) := by
  constructor
  · simp only [validatePuzzleUniqueness, hd]
    rw [ha, wordErrorLines_false]
  · intro hw
    simp [validatePuzzleUniqueness, hd, ha, List.length_pos, hw]

/-- Witness candidate for the word-reuse claims: reuses the single word
`red` from `wP1` inside an otherwise fresh group. -/
def wCandReuse : Puzzle :=
  ⟨"2025-01-02", ["red", "dog", "fox", "owl"],
   [⟨["red", "dog", "fox", "owl"], "mixed"⟩]⟩

/-- The strict options used by the C6 witness. -/
def strictOptions : ValidateOptions :=
  { allowWordReuse := false
    allowSimilarExplanations := true
    minGroupOverlap := 3
    verbose := true }

/-- Witness for C6 at a concrete reused word in strict mode. -/
theorem validate_strict_mode_witness :
    checkForExactDuplicate wCandReuse [wP1] = none ∧
    ((validatePuzzleUniqueness wCandReuse [wP1] strictOptions).errors =
      groupErrorLines (checkForDuplicateGroups wCandReuse [wP1]
          strictOptions.minGroupOverlap) ++
        (checkForDuplicateWords wCandReuse [wP1]).map fmtWordError ++
        explErrorLines (checkForSimilarExplanations wCandReuse [wP1])
          strictOptions.allowSimilarExplanations ∧
    (checkForDuplicateWords wCandReuse [wP1] ≠ [] →
      (validatePuzzleUniqueness wCandReuse [wP1] strictOptions).valid = false)) :=
  ⟨by decide, validate_strict_mode wCandReuse [wP1] strictOptions (by decide) rfl⟩

/-- C5: with default options, a candidate that is no exact duplicate, reuses
`k ≥ 1` words, and has no group overlapping a prior group by the threshold is
accepted; the warnings are the summary with count `k`, then `min k 5` detail
lines, then the truncation line exactly when `k > 5` (followed only by the
explanation-check summary); with `verbose = false` the word-reuse output is
the summary alone. -/
theorem validate_word_reuse_default (c : Puzzle) (corpus : List Puzzle)
    (hd : checkForExactDuplicate c corpus = none)
    (hg : checkForDuplicateGroups c corpus 3 = [])
    (hw : checkForDuplicateWords c corpus ≠ []) :
    ((validatePuzzleUniqueness c corpus defaultOptions).valid = true ∧
     (validatePuzzleUniqueness c corpus defaultOptions).warnings =
       (fmtWordWarnSummary (checkForDuplicateWords c corpus).length ::
         ((checkForDuplicateWords c corpus).take 5).map fmtWordWarnDetail ++
           (if 5 < (checkForDuplicateWords c corpus).length then
             [fmtWordWarnMore ((checkForDuplicateWords c corpus).length - 5)]
            else [])) ++
         explWarningLines (checkForSimilarExplanations c corpus) true ∧
     (((checkForDuplicateWords c corpus).take 5).map fmtWordWarnDetail).length =
       min (checkForDuplicateWords c corpus).length 5) ∧
    ((validatePuzzleUniqueness c corpus
        { allowWordReuse := true
          allowSimilarExplanations := true
          minGroupOverlap := 3
          verbose := false }).valid = true ∧
     (validatePuzzleUniqueness c corpus
        { allowWordReuse := true
          allowSimilarExplanations := true
          minGroupOverlap := 3
          verbose := false }).warnings =
       [fmtWordWarnSummary (checkForDuplicateWords c corpus).length] ++
         explWarningLines (checkForSimilarExplanations c corpus) true) := by
  have hlen : 0 < (checkForDuplicateWords c corpus).length := List.length_pos.mpr hw
  constructor
  · refine ⟨?_, ?_, ?_⟩
    · simp [validatePuzzleUniqueness, hd, defaultOptions, hg]
    · simp [validatePuzzleUniqueness, hd, defaultOptions, wordWarningLines, hlen]
    · rw [List.length_map, List.length_take, Nat.min_comm]
  · constructor
    · simp [validatePuzzleUniqueness, hd, hg]
    · simp [validatePuzzleUniqueness, hd, wordWarningLines, hlen]

/-- Witness for C5: `wCandReuse` reuses one word of `wP1`. -/
theorem validate_word_reuse_default_witness :
    ((validatePuzzleUniqueness wCandReuse [wP1] defaultOptions).valid = true ∧
     (validatePuzzleUniqueness wCandReuse [wP1] defaultOptions).warnings =
       (fmtWordWarnSummary (checkForDuplicateWords wCandReuse [wP1]).length ::
         ((checkForDuplicateWords wCandReuse [wP1]).take 5).map fmtWordWarnDetail ++
           (if 5 < (checkForDuplicateWords wCandReuse [wP1]).length then
             [fmtWordWarnMore ((checkForDuplicateWords wCandReuse [wP1]).length - 5)]
            else [])) ++
         explWarningLines (checkForSimilarExplanations wCandReuse [wP1]) true ∧
     (((checkForDuplicateWords wCandReuse [wP1]).take 5).map fmtWordWarnDetail).length =
       min (checkForDuplicateWords wCandReuse [wP1]).length 5) ∧
    ((validatePuzzleUniqueness wCandReuse [wP1]
        { allowWordReuse := true
          allowSimilarExplanations := true
          minGroupOverlap := 3
          verbose := false }).valid = true ∧
     (validatePuzzleUniqueness wCandReuse [wP1]
        { allowWordReuse := true
          allowSimilarExplanations := true
          minGroupOverlap := 3
          verbose := false }).warnings =
       [fmtWordWarnSummary (checkForDuplicateWords wCandReuse [wP1]).length] ++
         explWarningLines (checkForSimilarExplanations wCandReuse [wP1]) true) :=
  validate_word_reuse_default wCandReuse [wP1] (by decide) (by decide) (by decide)

/-- C7: `checkForSimilarExplanations` returns exactly the explanations
(original casing, in candidate group order) of the candidate groups whose
lowercased explanation equals the lowercased explanation of some corpus
group — exact string matching up to case, nothing fuzzy. -/
theorem checkForSimilarExplanations_spec (c : Puzzle) (corpus : List Puzzle) :
    checkForSimilarExplanations c corpus =
      (c.groups.filter (fun g => decide (∃ p ∈ corpus, ∃ pg ∈ p.groups,
        lowerStr pg.explanation = lowerStr g.explanation))).map
        (fun g => g.explanation) := by
  unfold checkForSimilarExplanations
  congr 1
  apply List.filter_congr
  intro g _
  rw [decide_eq_decide]
  unfold getAllUsedExplanations
  simp [List.mem_dedup, List.mem_flatMap, List.mem_map]

/-- The source's overlap list has exactly the cardinality of the spec's
case-insensitive set intersection. -/
theorem lowerOverlap_length (xs ys : List String) :
    (lowerOverlap xs ys).length = (interLower xs ys).card := by
  unfold lowerOverlap interLower
  have hnd : ((xs.map lowerStr).dedup.filter
      (fun w => decide (w ∈ ys.map lowerStr))).Nodup :=
    List.Nodup.filter _ (List.nodup_dedup _)
  rw [← List.toFinset_card_of_nodup hnd]
  congr 1
  rw [List.toFinset_filter, dedup_toFinset, ← Finset.filter_mem_eq_inter]
  apply Finset.filter_congr
  intro x _
  simp [List.mem_toFinset]

/-- C3: the duplicate-group records are exactly one record per pair of a
candidate group and a corpus group whose case-insensitive word-set
intersection reaches `minOverlap` — all qualifying pairs, in traversal order,
each with `overlapCount` equal to the true intersection cardinality. -/
theorem checkForDuplicateGroups_spec (c : Puzzle) (corpus : List Puzzle)
    (minOverlap : Nat) :
    checkForDuplicateGroups c corpus minOverlap =
      c.groups.enum.flatMap (fun gi =>
        (flatGroups corpus).filterMap (fun prev =>
          if minOverlap ≤ (interLower gi.2.words prev.2.words).card then
            some { groupIndex := gi.1
                   newGroupExplanation := gi.2.explanation
                   newGroupWords := gi.2.words
                   previousDate := prev.1
                   previousExplanation := prev.2.explanation
                   overlappingWords := lowerOverlap gi.2.words prev.2.words
                   overlapCount := (interLower gi.2.words prev.2.words).card }
          else none)) := by
  simp only [checkForDuplicateGroups]
  congr 1
  funext gi
  apply List.filterMap_congr
  intro prev _
  rw [lowerOverlap_length]

/-- With a fresh key, the JS-object update appends the entry. -/
theorem objSet_not_mem (m : List (String × List String)) (k : String)
    (v : List String) (h : k ∉ m.map Prod.fst) : objSet m k v = m ++ [(k, v)] := by
  unfold objSet
  rw [if_neg]
  simp only [List.any_eq_true, decide_eq_true_eq, not_exists]
  intro e
  rintro ⟨he, rfl⟩
  exact h (List.mem_map.mpr ⟨e, he, rfl⟩)

/-- Building `wordsByDate` over pairwise-distinct dates appends one entry per
puzzle, in corpus order. -/
theorem foldl_objSet_nodup (l : List Puzzle) (m : List (String × List String))
    (h : (m.map Prod.fst ++ l.map Puzzle.date).Nodup) :
    l.foldl (fun m p => objSet m p.date p.words) m =
      m ++ l.map (fun p => (p.date, p.words)) := by
  induction l generalizing m with
  | nil => simp
  | cons p rest ih =>
    have hdisj := (List.nodup_append.mp h).2.2
    have hd : p.date ∉ m.map Prod.fst := by
      intro hmem
      exact hdisj hmem (by simp)
    rw [List.foldl_cons, objSet_not_mem m p.date p.words hd, ih]
    · simp
    · simpa using h

/-- Membership in the `usedWords` set is case-insensitive occurrence in some
corpus puzzle. -/
theorem mem_usedWords (corpus : List Puzzle) (w : String) :
    w ∈ (getAllUsedWords corpus).1 ↔ ∃ p ∈ corpus, w ∈ p.words.map lowerStr := by
  simp [getAllUsedWords, List.mem_dedup, List.mem_flatMap]

/-- C9: over a corpus with pairwise-distinct dates, `checkForDuplicateWords`
returns one record per candidate word that occurs case-insensitively in some
corpus puzzle, whose `usedIn` is the list of dates of the puzzles containing
the word by exact case-sensitive membership. -/
theorem checkForDuplicateWords_spec (c : Puzzle) (corpus : List Puzzle)
    (h : (corpus.map Puzzle.date).Nodup) :
    checkForDuplicateWords c corpus =
      c.words.filterMap (fun w =>
        if ∃ p ∈ corpus, lowerStr w ∈ p.words.map lowerStr then
          some { word := w
                 usedIn := (corpus.filter (fun p => decide (w ∈ p.words))).map
                   Puzzle.date }
        else none) := by
  simp only [checkForDuplicateWords]
  apply List.filterMap_congr
  intro w _
  have hm : (getAllUsedWords corpus).2 = corpus.map (fun p => (p.date, p.words)) := by
    simpa [getAllUsedWords] using foldl_objSet_nodup corpus [] (by simpa using h)
  rw [hm]
  apply if_congr (mem_usedWords corpus (lowerStr w))
  · have hfm : (((corpus.map (fun p => (p.date, p.words))).filter
        (fun e => decide (w ∈ e.2))).map (fun e => e.1)) =
        (corpus.filter (fun p => decide (w ∈ p.words))).map Puzzle.date := by
      rw [List.filter_map, List.map_map]
      rfl
    rw [hfm]
  · rfl

/-- A second corpus puzzle with its own date, for the statistics and
duplicate-word witnesses. -/
def wP2 : Puzzle :=
  ⟨"2025-01-03", ["blue", "sun", "moon", "star"],
   [⟨["blue", "sun", "moon", "star"], "sky"⟩]⟩

/-- Witness for C9 on a two-puzzle corpus with distinct dates. -/
theorem checkForDuplicateWords_spec_witness :
    ([wP1, wP2].map Puzzle.date).Nodup ∧
    checkForDuplicateWords wCandReuse [wP1, wP2] =
      wCandReuse.words.filterMap (fun w =>
        if ∃ p ∈ [wP1, wP2], lowerStr w ∈ p.words.map lowerStr then
          some { word := w
                 usedIn := ([wP1, wP2].filter (fun p => decide (w ∈ p.words))).map
                   Puzzle.date }
        else none) :=
  ⟨by decide, checkForDuplicateWords_spec wCandReuse [wP1, wP2] (by decide)⟩

/-! ## Word-usage statistics -/

/-- All lowercased words of the corpus, in traversal order (the sequence of
`wordCount` increments performed by `getWordUsageStats`). -/
def allLower (corpus : List Puzzle) : List String :=
  corpus.flatMap (fun p => p.words.map lowerStr)

/-- The `wordCount` object is the fold of single increments over `allLower`. -/
theorem wordCounts_eq (corpus : List Puzzle) :
    wordCounts corpus = (allLower corpus).foldl bump [] := by
  suffices h : ∀ m, corpus.foldl
      (fun m p => p.words.foldl (fun m w => bump m (lowerStr w)) m) m =
      (allLower corpus).foldl bump m from h []
  induction corpus with
  | nil => intro m; rfl
  | cons p rest ih =>
    intro m
    have h1 : allLower (p :: rest) = p.words.map lowerStr ++ allLower rest := by
      simp [allLower]
    rw [List.foldl_cons, ih, h1, List.foldl_append, List.foldl_map]

/-- Invariant tying a counter object to the multiset of processed words:
keys are distinct, each entry counts its key's occurrences, and every
processed word has an entry. -/
def countsFor (ws : List String) (m : List (String × Nat)) : Prop :=
  (m.map Prod.fst).Nodup ∧
  (∀ e ∈ m, e.1 ∈ ws ∧ e.2 = ws.count e.1) ∧
  (∀ w ∈ ws, w ∈ m.map Prod.fst)

/-- One `bump` extends the invariant by one processed word. -/
theorem countsFor_bump (ws : List String) (m : List (String × Nat)) (k : String)
    (h : countsFor ws m) : countsFor (ws ++ [k]) (bump m k) := by
  obtain ⟨hnd, hent, hcov⟩ := h
  unfold bump
  by_cases hk : m.any (fun e => decide (e.1 = k)) = true
  · rw [if_pos hk]
    have hkws : k ∈ ws := by
      obtain ⟨e, he, hek⟩ := List.any_eq_true.mp hk
      have := (hent e he).1
      rwa [of_decide_eq_true hek] at this
    have hkeys : (m.map (fun e => if e.1 = k then (e.1, e.2 + 1) else e)).map
        Prod.fst = m.map Prod.fst := by
      rw [List.map_map]
      apply List.map_congr_left
      intro e _
      by_cases he1 : e.1 = k <;> simp [he1]
    refine ⟨by rw [hkeys]; exact hnd, ?_, ?_⟩
    · intro e' he'
      obtain ⟨e, he, hupd⟩ := List.mem_map.mp he'
      obtain ⟨hews, hecount⟩ := hent e he
      by_cases he1 : e.1 = k
      · rw [if_pos he1] at hupd
        rw [← hupd]
        constructor
        · simp [he1, hkws]
        · simp only [List.count_append, hecount, he1]
          simp [List.count_cons]
      · rw [if_neg he1] at hupd
        rw [← hupd]
        constructor
        · simp [hews]
        · have hne' : ¬ k = e.1 := fun hh => he1 hh.symm
          simp only [List.count_append, hecount]
          simp [List.count_cons, hne']
    · intro w hw
      rw [hkeys]
      rcases List.mem_append.mp hw with hws | hk1
      · exact hcov w hws
      · have : w = k := by simpa using hk1
        exact this ▸ hcov k hkws
  · rw [if_neg hk]
    have hknot : k ∉ m.map Prod.fst := by
      intro hmem
      obtain ⟨e, he, hek⟩ := List.mem_map.mp hmem
      exact hk (List.any_eq_true.mpr ⟨e, he, decide_eq_true hek⟩)
    have hkws : k ∉ ws := fun hws => hknot (hcov k hws)
    refine ⟨?_, ?_, ?_⟩
    · rw [List.map_append, List.nodup_append]
      exact ⟨hnd, by simp, by simpa [List.disjoint_singleton] using hknot⟩
    · intro e he
      rcases List.mem_append.mp he with hem | hesing
      · obtain ⟨hews, hecount⟩ := hent e hem
        have hne : e.1 ≠ k := fun h => hkws (h ▸ hews)
        constructor
        · simp [hews]
        · have hne' : ¬ k = e.1 := fun hh => hne hh.symm
          simp only [List.count_append, hecount]
          simp [List.count_cons, hne']
      · have : e = (k, 1) := by simpa using hesing
        subst this
        constructor
        · simp
        · simp [List.count_append, List.count_eq_zero.mpr hkws]
    · intro w hw
      rw [List.map_append]
      rcases List.mem_append.mp hw with hws | hk1
      · exact List.mem_append.mpr (Or.inl (hcov w hws))
      · simp only [List.map_cons, List.map_nil] at *
        exact List.mem_append.mpr (Or.inr (by simpa using hk1))

/-- The full fold satisfies the counting invariant. -/
theorem countsFor_foldl (ws : List String) : countsFor ws (ws.foldl bump []) := by
  induction ws using List.reverseRecOn with
  | nil => exact ⟨by simp, by simp, by simp⟩
  | append_singleton xs k ih =>
    rw [List.foldl_append]
    exact countsFor_bump xs _ k ih

/-- With per-puzzle case-insensitively distinct words, the occurrence count
of a word across `allLower` is the number of puzzles containing it. -/
theorem count_allLower (corpus : List Puzzle) (w : String)
    (h : ∀ p ∈ corpus, (p.words.map lowerStr).Nodup) :
    (allLower corpus).count w =
      (corpus.filter (fun p => decide (w ∈ p.words.map lowerStr))).length := by
  induction corpus with
  | nil => simp [allLower]
  | cons p rest ih =>
    have hp := h p (by simp)
    have hrest : ∀ q ∈ rest, (q.words.map lowerStr).Nodup :=
      fun q hq => h q (by simp [hq])
    have h1 : allLower (p :: rest) = p.words.map lowerStr ++ allLower rest := by
      simp [allLower]
    rw [h1, List.count_append, List.count_eq_of_nodup hp, ih hrest,
      List.filter_cons]
    by_cases hw : w ∈ p.words.map lowerStr <;>
      simp [hw, Nat.add_comm]

/-- C8: on a corpus whose puzzles each have case-insensitively distinct
words, `getWordUsageStats` reports `totalPuzzles = N`; each `wordCount`
entry's count is the number of distinct puzzles containing that word
case-insensitively, and every occurring word has such an entry; the
reused-words list holds only entries with count above one, has at most 10
elements, and is sorted descending by count; and the average-size metric is
16 for a non-empty corpus and 0 otherwise. -/
theorem getWordUsageStats_spec (corpus : List Puzzle)
    (h : ∀ p ∈ corpus, (p.words.map lowerStr).Nodup) :
    (getWordUsageStats corpus).totalPuzzles = corpus.length ∧
    (∀ e ∈ wordCounts corpus,
      e.2 = (corpus.filter (fun p => decide (e.1 ∈ p.words.map lowerStr))).length) ∧
    (∀ w, (∃ p ∈ corpus, w ∈ p.words.map lowerStr) →
      (w, (corpus.filter (fun p => decide (w ∈ p.words.map lowerStr))).length) ∈
        wordCounts corpus) ∧
    (∀ e ∈ (getWordUsageStats corpus).reusedWords, 1 < e.2 ∧ e ∈ wordCounts corpus) ∧
    (getWordUsageStats corpus).reusedWords.length ≤ 10 ∧
    List.Sorted (fun a b => b ≤ a)
      ((getWordUsageStats corpus).reusedWords.map Prod.snd) ∧
    (getWordUsageStats corpus).averageWordsPerPuzzle =
      (if 0 < corpus.length then 16 else 0) := by
  obtain ⟨hnd, hent, hcov⟩ :
      countsFor (allLower corpus) (wordCounts corpus) := by
    rw [wordCounts_eq]
    exact countsFor_foldl (allLower corpus)
  refine ⟨by simp [getWordUsageStats], ?_, ?_, ?_, ?_, ?_, ?_⟩
  · intro e he
    obtain ⟨hmem, hcount⟩ := hent e he
    rw [hcount, count_allLower corpus e.1 h]
  · intro w hw
    have hwa : w ∈ allLower corpus := by
      simp only [allLower, List.mem_flatMap]
      exact hw
    obtain ⟨e, he, hek⟩ := List.mem_map.mp (hcov w hwa)
    obtain ⟨_, hecount⟩ := hent e he
    have heq : (w, (corpus.filter
        (fun p => decide (w ∈ p.words.map lowerStr))).length) = e := by
      have h2 : e.2 = (corpus.filter
          (fun p => decide (w ∈ p.words.map lowerStr))).length := by
        rw [hecount, hek, count_allLower corpus w h]
      exact Prod.ext_iff.mpr ⟨hek.symm, h2.symm⟩
    rw [heq]
    exact he
  · intro e he
    simp only [getWordUsageStats] at he
    have h1 : e ∈ ((wordCounts corpus).filter
        (fun e => decide (1 < e.2))).mergeSort (fun a b => decide (b.2 ≤ a.2)) :=
      List.mem_of_mem_take he
    have h2 : e ∈ (wordCounts corpus).filter (fun e => decide (1 < e.2)) :=
      (List.mergeSort_perm _ _).mem_iff.mp h1
    obtain ⟨hm, hgt⟩ := List.mem_filter.mp h2
    exact ⟨of_decide_eq_true hgt, hm⟩
  · simp only [getWordUsageStats, List.length_take]
    exact Nat.min_le_left 10 _
  · have htrans : ∀ (a b c : String × Nat),
        (fun a b => decide (b.2 ≤ a.2)) a b = true →
        (fun a b => decide (b.2 ≤ a.2)) b c = true →
        (fun a b => decide (b.2 ≤ a.2)) a c = true := by
      intro a b c hab hbc
      simp only [decide_eq_true_eq] at *
      exact le_trans hbc hab
    have htot : ∀ (a b : String × Nat),
        ((fun a b => decide (b.2 ≤ a.2)) a b ||
          (fun a b => decide (b.2 ≤ a.2)) b a) = true := by
      intro a b
      simp only [Bool.or_eq_true, decide_eq_true_eq]
      exact (Nat.le_total b.2 a.2)
    have hs := List.sorted_mergeSort htrans htot
      ((wordCounts corpus).filter (fun e => decide (1 < e.2)))
    have hstake := hs.sublist (List.take_sublist 10 _)
    have hw : List.Pairwise (fun (a b : String × Nat) => b.2 ≤ a.2)
        ((getWordUsageStats corpus).reusedWords) := by
      simp only [getWordUsageStats]
      exact hstake.imp (fun hab => of_decide_eq_true hab)
    exact List.pairwise_map.mpr hw
  · simp only [getWordUsageStats]
    by_cases hn : 0 < corpus.length
    · rw [if_pos hn, if_pos hn, Nat.mul_div_cancel_left 16 hn]
    · rw [if_neg hn, if_neg hn]

/-- Witness for C8 on a concrete two-puzzle corpus sharing the word `blue`. -/
theorem getWordUsageStats_spec_witness :
    (∀ p ∈ [wP1, wP2], (p.words.map lowerStr).Nodup) ∧
    ((getWordUsageStats [wP1, wP2]).totalPuzzles = [wP1, wP2].length ∧
    (∀ e ∈ wordCounts [wP1, wP2],
      e.2 = ([wP1, wP2].filter
        (fun p => decide (e.1 ∈ p.words.map lowerStr))).length) ∧
    (∀ w, (∃ p ∈ [wP1, wP2], w ∈ p.words.map lowerStr) →
      (w, ([wP1, wP2].filter
        (fun p => decide (w ∈ p.words.map lowerStr))).length) ∈
        wordCounts [wP1, wP2]) ∧
    (∀ e ∈ (getWordUsageStats [wP1, wP2]).reusedWords,
      1 < e.2 ∧ e ∈ wordCounts [wP1, wP2]) ∧
    (getWordUsageStats [wP1, wP2]).reusedWords.length ≤ 10 ∧
    List.Sorted (fun a b => b ≤ a)
      ((getWordUsageStats [wP1, wP2]).reusedWords.map Prod.snd) ∧
    (getWordUsageStats [wP1, wP2]).averageWordsPerPuzzle =
      (if 0 < [wP1, wP2].length then 16 else 0)) :=
  ⟨by decide, getWordUsageStats_spec [wP1, wP2] (by decide)⟩

end ConnectionsValidator
